import Mathlib

/-!
Verification of the `stratify` 1-d interpolation core (`src/stratify/_vinterp.pyx`).

Embedding conventions:

* C `double` values are modelled by `Fp`: an exact rational, one of the two
  infinities, or NaN.  The algorithm only uses comparison, subtraction,
  addition, multiplication, division and `fabs` on doubles, and every claim's
  scenario stays inside exactly representable arithmetic, so exact rational
  arithmetic with IEEE NaN/infinity propagation rules is a faithful model.
  The model has a single zero (every zero produced by the program arises as
  `x - x` or as an input, i.e. `+0` up to sign-of-zero, which only division
  could observe).
* A "column" of data (`fz_src` in a single `gridwise_interpolation` call) is a
  `List (List Fp)`: one inner list per data row, all of equal length in the
  driver's calling convention.  The output of one gridwise call is represented
  target-major: one list (of one value per row) per target level, i.e. the
  transpose of the C buffer `fz_target[row, target]`; the written content is
  the same.
* Reads that the C code performs out of bounds (with `boundscheck(False)`,
  undefined behaviour) are modelled by `List.getD _ Fp.nan`; all theorems stay
  within in-contract indices.
* Error exits (`raise ValueError`) are modelled by `Except.error`; an error
  result carries no output.
-/

/-- Model of an IEEE double: NaN, an infinity (`inf true` = `+inf`,
`inf false` = `-inf`), or a finite value (exact rational). -/
inductive Fp where
  | nan : Fp
  | inf : Bool → Fp
  | fin : ℚ → Fp
deriving DecidableEq

/-- `isnan` from `math.h`. -/
def Fp.isNaN : Fp → Bool
  | .nan => true
  | _ => false

/-- IEEE `<` on doubles: false whenever NaN is involved. -/
def fpLt : Fp → Fp → Bool
  | .nan, _ => false
  | _, .nan => false
  | .inf true, _ => false
  | .inf false, .inf false => false
  | .inf false, _ => true
  | .fin _, .inf true => true
  | .fin _, .inf false => false
  | .fin a, .fin b => decide (a < b)

/-- IEEE `==` on doubles: NaN compares unequal to everything. -/
def fpBeq : Fp → Fp → Bool
  | .inf a, .inf b => a == b
  | .fin a, .fin b => a == b
  | _, _ => false

/-- IEEE `<=` on doubles. -/
def fpLe (a b : Fp) : Bool := fpLt a b || fpBeq a b

/-- IEEE subtraction. -/
def fpSub : Fp → Fp → Fp
  | .nan, _ => .nan
  | _, .nan => .nan
  | .inf a, .inf b => if a = b then .nan else .inf a
  | .inf a, .fin _ => .inf a
  | .fin _, .inf b => .inf (!b)
  | .fin a, .fin b => .fin (a - b)

/-- IEEE addition. -/
def fpAdd : Fp → Fp → Fp
  | .nan, _ => .nan
  | _, .nan => .nan
  | .inf a, .inf b => if a = b then .inf a else .nan
  | .inf a, .fin _ => .inf a
  | .fin _, .inf b => .inf b
  | .fin a, .fin b => .fin (a + b)

/-- IEEE multiplication. -/
def fpMul : Fp → Fp → Fp
  | .nan, _ => .nan
  | _, .nan => .nan
  | .inf a, .inf b => .inf (a == b)
  | .inf a, .fin q => if q = 0 then .nan else .inf (a == decide (0 < q))
  | .fin q, .inf b => if q = 0 then .nan else .inf (b == decide (0 < q))
  | .fin a, .fin b => .fin (a * b)

/-- IEEE division (single-zero model: a zero denominator or a zero numerator
behaves as `+0`). -/
def fpDiv : Fp → Fp → Fp
  | .nan, _ => .nan
  | _, .nan => .nan
  | .inf _, .inf _ => .nan
  | .inf a, .fin q => .inf (a == decide (0 ≤ q))
  | .fin _, .inf _ => .fin 0
  | .fin a, .fin b =>
    if b = 0 then (if a = 0 then .nan else .inf (decide (0 < a)))
    else .fin (a / b)

/-- `fabs` from `math.h`. -/
def fpAbs : Fp → Fp
  | .nan => .nan
  | .inf _ => .inf true
  | .fin a => .fin |a|

/-- `relative_sign(z, z_base)`: the sign of `z - z_base`, computed in the
source as `(delta > 0) - (delta < 0)` (so `0` when the difference is NaN). -/
def relative_sign (z z_base : Fp) : ℤ :=
  (if fpLt (Fp.fin 0) (fpSub z z_base) then (1 : ℤ) else 0)
    - (if fpLt (fpSub z z_base) (Fp.fin 0) then (1 : ℤ) else 0)

/-- The error exits of the module (each a `raise ValueError` in the source). -/
inductive MarchErr where
  | invalidTarget
  | invalidSource
  | insufficientData
deriving DecidableEq

/-- `linear_interp`: the linear interpolation kernel. -/
def linear_interp (index : ℕ) (z_src : List Fp) (fz_src : List (List Fp))
    (level : Fp) : List Fp :=
  if fpBeq level (z_src.getD index Fp.nan) then
    fz_src.map (fun row => row.getD index Fp.nan)
  else
    let frac := fpDiv (fpSub level (z_src.getD (index - 1) Fp.nan))
      (fpSub (z_src.getD index Fp.nan) (z_src.getD (index - 1) Fp.nan))
    fz_src.map (fun row =>
      fpAdd (row.getD (index - 1) Fp.nan)
        (fpMul frac (fpSub (row.getD index Fp.nan) (row.getD (index - 1) Fp.nan))))

/-- `nearest_interp`: the nearest-neighbour interpolation kernel. -/
def nearest_interp (index : ℕ) (z_src : List Fp) (fz_src : List (List Fp))
    (level : Fp) : List Fp :=
  let nearest_index :=
    if index ≠ 0 ∧ fpLe (fpAbs (fpSub level (z_src.getD (index - 1) Fp.nan)))
        (fpAbs (fpSub level (z_src.getD index Fp.nan))) = true
    then index - 1 else index
  fz_src.map (fun row => row.getD nearest_index Fp.nan)

/-- `nearest_edge_extrap`: copy the first or last column depending on
direction. -/
def nearest_edge_extrap (direction : ℤ) (z_src : List Fp)
    (fz_src : List (List Fp)) (level : Fp) : List Fp :=
  let index := if direction < 0 then 0 else (fz_src.headD []).length - 1
  fz_src.map (fun row => row.getD index Fp.nan)

/-- `linear_extrap`: linear extrapolation from the first or last two samples;
raises when fewer than 2 source points exist. -/
def linear_extrap (direction : ℤ) (z_src : List Fp) (fz_src : List (List Fp))
    (level : Fp) : Except MarchErr (List Fp) :=
  let n_src_pts := (fz_src.headD []).length
  if n_src_pts < 2 then .error .insufficientData
  else
    let p0 := if direction < 0 then 0 else n_src_pts - 2
    let p1 := if direction < 0 then 1 else n_src_pts - 1
    let frac := fpDiv (fpSub level (z_src.getD p0 Fp.nan))
      (fpSub (z_src.getD p1 Fp.nan) (z_src.getD p0 Fp.nan))
    .ok (fz_src.map (fun row =>
      fpAdd (row.getD p0 Fp.nan)
        (fpMul frac (fpSub (row.getD p1 Fp.nan) (row.getD p0 Fp.nan)))))

/-- `nan_data_extrap`: fill with NaN. -/
def nan_data_extrap (direction : ℤ) (z_src : List Fp) (fz_src : List (List Fp))
    (level : Fp) : List Fp :=
  fz_src.map (fun _ => Fp.nan)

/-- The closed set of interpolation kernels (`INTERPOLATE_LINEAR`,
`INTERPOLATE_NEAREST`). -/
inductive IKernel where
  | linear
  | nearest
deriving DecidableEq

/-- The closed set of extrapolation kernels (`EXTRAPOLATE_NAN`,
`EXTRAPOLATE_NEAREST`, `EXTRAPOLATE_LINEAR`). -/
inductive EKernel where
  | nanFill
  | nearestEdge
  | linearEdge
deriving DecidableEq

/-- Kernel dispatch for interpolation. -/
def runInterpKernel : IKernel → ℕ → List Fp → List (List Fp) → Fp → List Fp
  | .linear => linear_interp
  | .nearest => nearest_interp

/-- Kernel dispatch for extrapolation. -/
def runExtrapKernel :
    EKernel → ℤ → List Fp → List (List Fp) → Fp → Except MarchErr (List Fp)
  | .nanFill => fun d z fz lvl => .ok (nan_data_extrap d z fz lvl)
  | .nearestEdge => fun d z fz lvl => .ok (nearest_edge_extrap d z fz lvl)
  | .linearEdge => linear_extrap

/-- The mutable state of the column marcher between targets: source cursor,
the window's lower and upper bounds, and the extrapolation flag
(`-1` before start, `0` in range, `1` past the end). -/
structure MarchState where
  i_src : ℕ
  z_before : Fp
  z_after : Fp
  extrapolating : ℤ
deriving DecidableEq

/-- Which kernel `gridwise_interpolation` invokes for one target, and with
which argument: interpolation at a bracket index, or extrapolation in a
direction. -/
inductive KernelCall where
  | interp (i : ℕ)
  | extrap (direction : ℤ)
deriving DecidableEq

/-- The inner `while sign_before == sign_after` loop of
`gridwise_interpolation`: advance `i_src`, pulling the next source sample as
the new `z_after` (raising if it is NaN), or fall off the end and set
`z_after` to `z_last`.  `rest` is the unconsumed tail of the source column,
`z_src[i_src + 1 :]`, whose head is the sample `z_src[i_src + 1]` the C loop
reads when `i_src + 1 < n_src`; recursion on it is the loop's progress.
Returns the updated `(i_src, z_after, extrapolating, sign_after)`. -/
def advanceLoop (z_last : Fp) (sb : ℤ) (cur : Fp) :
    List Fp → ℕ → Fp → ℤ → ℤ → Except MarchErr (ℕ × Fp × ℤ × ℤ)
  | rest, i_src, z_after, extr, sa =>
    if sb = sa then
      match rest with
      | [] => Except.ok (i_src + 1, z_last, 1, relative_sign z_last cur)
      | za :: rest' =>
        if za.isNaN then Except.error MarchErr.invalidSource
        else advanceLoop z_last sb cur rest' (i_src + 1) za 0 (relative_sign za cur)
    else
      Except.ok (i_src, z_after, extr, sa)

/-- The body of the `for i_target ...` loop of `gridwise_interpolation` for a
single target level: NaN check, sign computation, window advance, kernel
selection, and the update of the window's lower bound. -/
def marchStep (z_src : List Fp) (z_last : Fp) (st : MarchState) (cur : Fp) :
    Except MarchErr (KernelCall × MarchState) :=
  if cur.isNaN then .error .invalidTarget
  else
    let sb := relative_sign st.z_before cur
    let sa := relative_sign st.z_after cur
    match advanceLoop z_last sb cur (z_src.drop (st.i_src + 1)) st.i_src
        st.z_after st.extrapolating sa with
    | .error e => .error e
    | .ok (i', za', ex', sa') =>
      let call := if ex' = 0 ∨ sa' = 0 then KernelCall.interp i'
        else KernelCall.extrap ex'
      .ok (call, ⟨i', cur, za', ex'⟩)

/-- Run the selected kernel for one target, producing one output value per
data row. -/
def applyCall (ik : IKernel) (ek : EKernel) (z_src : List Fp)
    (fz_src : List (List Fp)) (cur : Fp) : KernelCall → Except MarchErr (List Fp)
  | .interp i => .ok (runInterpKernel ik i z_src fz_src cur)
  | .extrap d => runExtrapKernel ek d z_src fz_src cur

/-- The target loop of `gridwise_interpolation`: march through the targets in
order, threading the window state; the output is target-major (one inner list
per target, one value per data row). -/
def marchAux (z_src : List Fp) (fz_src : List (List Fp)) (z_last : Fp)
    (ik : IKernel) (ek : EKernel) :
    List Fp → MarchState → Except MarchErr (List (List Fp))
  | [], _ => .ok []
  | cur :: rest, st =>
    match marchStep z_src z_last st cur with
    | .error e => .error e
    | .ok (call, st') =>
      match applyCall ik ek z_src fz_src cur call with
      | .error e => .error e
      | .ok col =>
        match marchAux z_src fz_src z_last ik ek rest st' with
        | .error e => .error e
        | .ok cols => .ok (col :: cols)

/-- The initial search window: lower bound `-inf` when rising else `+inf`,
upper bound the first source sample, cursor 0, extrapolation flag `-1`. -/
def initState (increasing : Bool) (z_src : List Fp) : MarchState :=
  { i_src := 0
    z_before := if increasing then Fp.inf false else Fp.inf true
    z_after := z_src.getD 0 Fp.nan
    extrapolating := -1 }

/-- `z_last = -z_before`: the opposite-direction infinity used as the window's
upper edge once the source is exhausted. -/
def zLast (increasing : Bool) : Fp :=
  if increasing then Fp.inf true else Fp.inf false

/-- `gridwise_interpolation`: interpolation of one column.  A source column
whose leading value is NaN and whose values are all NaN yields an all-NaN
output immediately; otherwise the marcher runs over the targets in order.
(For an empty source column the C code reads out of bounds; the model treats
the missing leading value as NaN.) -/
def gridwise_interpolation (z_target z_src : List Fp) (fz_src : List (List Fp))
    (increasing : Bool) (ik : IKernel) (ek : EKernel) :
    Except MarchErr (List (List Fp)) :=
  if z_target.length ≠ 0 ∧ (z_src.getD 0 Fp.nan).isNaN = true
      ∧ z_src.all Fp.isNaN = true then
    .ok (List.replicate z_target.length (List.replicate fz_src.length Fp.nan))
  else
    marchAux z_src fz_src (zLast increasing) ik ek z_target
      (initState increasing z_src)

/-- `fp_axis = (axis + fz_src.ndim) % fz_src.ndim`: the interpolation axis
resolved to an absolute index within the data's rank (`%` is Python's
nonnegative-remainder modulo, which `Int.emod` matches for a positive
modulus). -/
def fp_axis_of (fnd : ℕ) (axis : ℤ) : ℤ := (axis + fnd) % fnd

/-- `zp_axis = fp_axis - (fz_src.ndim - z_src.ndim)`: the corresponding axis
within the coordinate's rank. -/
def zp_axis_of (fnd znd : ℕ) (axis : ℤ) : ℤ :=
  fp_axis_of fnd axis - ((fnd : ℤ) - (znd : ℤ))

/-- The guard `not 0 <= zp_axis < z_src.ndim or axis > z_src.ndim` of
`_Interpolator.__init__`: true exactly when the constructor raises
`Axis ... out of range`. -/
def axis_out_of_range (fnd znd : ℕ) (axis : ℤ) : Bool :=
  !(decide (0 ≤ zp_axis_of fnd znd axis)
      && decide (zp_axis_of fnd znd axis < (znd : ℤ)))
    || decide ((znd : ℤ) < axis)

/-- The guard `z_src.shape != fz_src.shape[-z_src.ndim:]`, negated: true when
the coordinate's shape equals the data's trailing dimensions. -/
def shapes_consistent (zshape fzshape : List ℕ) : Bool :=
  decide (zshape = fzshape.drop (fzshape.length - zshape.length))

/-- `lh_dim_size = ([1] + list(np.cumprod(z_src.shape)))[zp_axis]`: the
product of the coordinate dimensions before the interpolation axis
(`List.scanl (· * ·) 1` is exactly `[1] + cumprod`). -/
def lh_dim_size (zshape : List ℕ) (zp_axis : ℕ) : ℕ :=
  (List.scanl (· * ·) 1 zshape).getD zp_axis 1

/-- `result_shape`: a copy of the data's shape with the resolved axis's
extent replaced by the target-coordinate count (lines 530-535 of the
source). -/
def result_shape_of (orig_shape : List ℕ) (fp_axis : ℕ) (z_target_size : ℕ) :
    List ℕ :=
  orig_shape.set fp_axis z_target_size

/-- NumPy element-type categories, at the granularity the driver
distinguishes: any integer dtype, or a concrete floating dtype. -/
inductive DType where
  | intType
  | float32
  | float64
deriving DecidableEq

/-- `np.issubdtype(dtype, int)` at the category level. -/
def issubdtype_int : DType → Bool
  | .intType => true
  | _ => false

/-- Whether a dtype is a floating-point category. -/
def DType.isFloating : DType → Bool
  | .intType => false
  | _ => true

/-- `_target_dtype`: `float64` for integer input data, the input's own dtype
otherwise (lines 468-472 of the source). -/
def target_dtype (d : DType) : DType :=
  if issubdtype_int d then .float64 else d

/-- Helper: a nonempty suffix pins down the element at its start. -/
lemma getD_of_drop_cons {l : List Fp} {n : ℕ} {a : Fp} {t : List Fp}
    (h : l.drop n = a :: t) :
    n < l.length ∧ l.getD n Fp.nan = a ∧ t = l.drop (n + 1) := by
  have hn : n < l.length := by
    by_contra hh
    push_neg at hh
    rw [List.drop_eq_nil_of_le hh] at h
    cases h
  have hd := @List.drop_eq_getElem_cons _ n l hn
  rw [hd] at h
  injection h with h1 h2
  refine ⟨hn, ?_, h2.symm⟩
  simp [List.getD_eq_getElem?_getD, List.getElem?_eq_getElem hn, h1]

/-- Helper: `getD` past the end returns the default. -/
lemma getD_of_le_length {l : List Fp} {n : ℕ} (h : l.length ≤ n) :
    l.getD n Fp.nan = Fp.nan := by
  simp [List.getD_eq_getElem?_getD, List.getElem?_eq_none h]

/-- Two equal values have the same sign relative to any base. -/
lemma relative_sign_congr {a b : Fp} (cur : Fp) (h : a = b) :
    relative_sign a cur = relative_sign b cur := by rw [h]

/-- Behaviour of the window-advance loop: either the entry signs already
differ and nothing moves, or the cursor advances to a bracketing in-range
sample (extrapolation flag cleared), or the source is exhausted
(extrapolation flag set to `1`). -/
lemma advanceLoop_spec (z_src : List Fp) (z_last : Fp) (sb : ℤ) (cur : Fp) :
    ∀ (rest : List Fp) (i : ℕ) (za : Fp) (ex : ℤ) (sa : ℤ),
      rest = z_src.drop (i + 1) →
      sa = relative_sign za cur →
      ∀ i' za' ex' sa',
        advanceLoop z_last sb cur rest i za ex sa
          = Except.ok (i', za', ex', sa') →
        sa' = relative_sign za' cur ∧
        ((i' = i ∧ za' = za ∧ ex' = ex ∧ sa' = sa ∧ sb ≠ sa) ∨
         (ex' = 0 ∧ i < i' ∧ i' < z_src.length ∧
            za' = z_src.getD i' Fp.nan ∧ za'.isNaN = false ∧
            sa' ≠ sb ∧ sb = relative_sign za cur ∧
            (i' = i + 1 ∨
              relative_sign (z_src.getD (i' - 1) Fp.nan) cur = sb)) ∨
         (ex' = 1 ∧ z_src.length ≤ i' ∧ za' = z_last)) := by
  intro rest
  induction rest with
  | nil =>
    intro i za ex sa hrest hsa i' za' ex' sa' hrun
    rw [advanceLoop] at hrun
    by_cases hb : sb = sa
    · simp only [if_pos hb, Except.ok.injEq, Prod.mk.injEq] at hrun
      obtain ⟨h1, h2, h3, h4⟩ := hrun
      subst h1 h2 h3 h4
      refine ⟨rfl, Or.inr (Or.inr ⟨rfl, ?_, rfl⟩)⟩
      have := List.drop_eq_nil_iff.mp hrest.symm
      omega
    · simp only [if_neg hb, Except.ok.injEq, Prod.mk.injEq] at hrun
      obtain ⟨h1, h2, h3, h4⟩ := hrun
      subst h1 h2 h3 h4
      exact ⟨hsa, Or.inl ⟨rfl, rfl, rfl, rfl, hb⟩⟩
  | cons z0 t ih =>
    intro i za ex sa hrest hsa i' za' ex' sa' hrun
    obtain ⟨hlt, hget, ht⟩ := getD_of_drop_cons hrest.symm
    rw [advanceLoop] at hrun
    by_cases hb : sb = sa
    · simp only [if_pos hb] at hrun
      by_cases hnan : z0.isNaN
      · simp only [if_pos hnan] at hrun
        cases hrun
      · simp only [if_neg hnan] at hrun
        obtain ⟨hsa', hcases⟩ := ih (i + 1) z0 0 (relative_sign z0 cur) ht rfl
          i' za' ex' sa' hrun
        refine ⟨hsa', ?_⟩
        rcases hcases with ⟨h1, h2, h3, h4, h5⟩ | hmid | hend
        · subst h1 h2 h3 h4
          refine Or.inr (Or.inl ⟨rfl, by omega, hlt, by rw [hget], ?_, ?_, ?_,
            Or.inl rfl⟩)
          · simpa [Bool.not_eq_true] using hnan
          · exact fun hc => h5 hc.symm
          · rw [hb, hsa]
        · obtain ⟨he, hi, hlen, hza, hnn, hne, hsb, hdisj⟩ := hmid
          refine Or.inr (Or.inl ⟨he, by omega, hlen, hza, hnn, hne,
            by rw [hb, hsa], ?_⟩)
          rcases hdisj with hd | hd
          · right
            rw [show i' - 1 = i + 1 by omega, hget]
            exact hsb.symm
          · exact Or.inr hd
        · exact Or.inr (Or.inr hend)
    · simp only [if_neg hb, Except.ok.injEq, Prod.mk.injEq] at hrun
      obtain ⟨h1, h2, h3, h4⟩ := hrun
      subst h1 h2 h3 h4
      exact ⟨hsa, Or.inl ⟨rfl, rfl, rfl, rfl, hb⟩⟩

/-- State invariant of the march, between targets: the extrapolation flag is
one of `-1`/`0`/`1`; `-1` means the cursor never advanced past index 0 (and
the window's upper edge is still the first source sample); `0` means the
cursor sits on an in-range, non-NaN source sample that differs from its
predecessor; `1` means the cursor ran off the end of the source. -/
def WinInv (z_src : List Fp) (st : MarchState) : Prop :=
  (st.extrapolating = -1 ∧ st.i_src = 0 ∧
     st.z_after = z_src.getD 0 Fp.nan) ∨
  (st.extrapolating = 0 ∧ 1 ≤ st.i_src ∧ st.i_src < z_src.length ∧
     st.z_after = z_src.getD st.i_src Fp.nan ∧ st.z_after.isNaN = false ∧
     z_src.getD (st.i_src - 1) Fp.nan ≠ z_src.getD st.i_src Fp.nan) ∨
  (st.extrapolating = 1 ∧ z_src.length ≤ st.i_src)

/-- One-step characterization of the marcher: the invariant is preserved, the
window's lower bound becomes the processed target, and the kernel choice is
interpolation at the current cursor exactly when the extrapolation flag is
cleared or the target sits exactly on the window's upper edge; otherwise it
is extrapolation with direction `-1` (never advanced past index 0) or `+1`
(ran off the end). -/
lemma marchStep_spec {z_src : List Fp} {z_last : Fp} {st : MarchState}
    {cur : Fp} {call : KernelCall} {st' : MarchState}
    (hinv : WinInv z_src st)
    (hstep : marchStep z_src z_last st cur = Except.ok (call, st')) :
    WinInv z_src st' ∧ cur.isNaN = false ∧ st'.z_before = cur ∧
    ((call = KernelCall.interp st'.i_src) ↔
      (st'.extrapolating = 0 ∨ relative_sign st'.z_after cur = 0)) ∧
    (call = KernelCall.extrap (-1) → st'.i_src = 0) ∧
    (call = KernelCall.extrap 1 → z_src.length ≤ st'.i_src) ∧
    (call = KernelCall.interp st'.i_src ∨ call = KernelCall.extrap (-1) ∨
      call = KernelCall.extrap 1) := by
  rw [marchStep] at hstep
  by_cases hnan : cur.isNaN
  · simp only [if_pos hnan] at hstep
    cases hstep
  · simp only [if_neg hnan] at hstep
    rcases hadv : advanceLoop z_last (relative_sign st.z_before cur) cur
        (z_src.drop (st.i_src + 1)) st.i_src st.z_after st.extrapolating
        (relative_sign st.z_after cur) with e | r
    · rw [hadv] at hstep
      cases hstep
    · obtain ⟨i', za', ex', sa'⟩ := r
      rw [hadv] at hstep
      simp only [Except.ok.injEq, Prod.mk.injEq] at hstep
      obtain ⟨hcall, hst'⟩ := hstep
      obtain ⟨hsa', hcases⟩ := advanceLoop_spec z_src z_last
        (relative_sign st.z_before cur) cur (z_src.drop (st.i_src + 1))
        st.i_src st.z_after st.extrapolating (relative_sign st.z_after cur)
        rfl rfl i' za' ex' sa' hadv
      have hinv' : WinInv z_src (⟨i', cur, za', ex'⟩ : MarchState) := by
        rcases hcases with ⟨h1, h2, h3, h4, h5⟩ |
            ⟨he, hi, hlen, hza, hnn, hne, hsb, hdisj⟩ | ⟨he, hlen, hz⟩
        · subst h1
          subst h2
          subst h3
          rcases hinv with ⟨a1, a2, a3⟩ | ⟨a1, a2, a3, a4, a5, a6⟩ | ⟨a1, a2⟩
          · exact Or.inl ⟨a1, a2, a3⟩
          · exact Or.inr (Or.inl ⟨a1, a2, a3, a4, a5, a6⟩)
          · exact Or.inr (Or.inr ⟨a1, a2⟩)
        · refine Or.inr (Or.inl ⟨he, ?_, hlen, hza, hnn, ?_⟩)
          · show 1 ≤ i'
            omega
          · show z_src.getD (i' - 1) Fp.nan ≠ z_src.getD i' Fp.nan
            rcases hdisj with hd | hd
            · have hidx : i' - 1 = st.i_src := by omega
              rw [hidx]
              have hza_entry : st.z_after = z_src.getD st.i_src Fp.nan := by
                rcases hinv with ⟨a1, a2, a3⟩ | ⟨a1, a2, a3, a4, a5, a6⟩ |
                    ⟨a1, a2⟩
                · rw [a2]
                  exact a3
                · exact a4
                · exact absurd hlen (by omega)
              intro hc
              apply hne
              rw [hsa', hza, ← hc, ← hza_entry]
              exact hsb.symm
            · intro hc
              apply hne
              rw [hsa', hza, ← hc]
              exact hd
        · exact Or.inr (Or.inr ⟨he, hlen⟩)
      subst hcall
      subst hst'
      refine ⟨hinv', by simpa using hnan, rfl, ?_, ?_, ?_, ?_⟩
      · show _ ↔ (ex' = 0 ∨ relative_sign za' cur = 0)
        rw [← hsa']
        by_cases hcond : ex' = 0 ∨ sa' = 0
        · rw [if_pos hcond]
          simp [hcond]
        · rw [if_neg hcond]
          simp [hcond]
      · intro hc
        by_cases hcond : ex' = 0 ∨ sa' = 0
        · rw [if_pos hcond] at hc
          cases hc
        · rw [if_neg hcond] at hc
          injection hc with hd
          show i' = 0
          rcases hinv' with ⟨a1, a2, a3⟩ | ⟨a1, a2⟩ | ⟨a1, a2⟩
          · exact a2
          · have hb1 : ex' = 0 := a1
            omega
          · have hb1 : ex' = 1 := a1
            omega
      · intro hc
        by_cases hcond : ex' = 0 ∨ sa' = 0
        · rw [if_pos hcond] at hc
          cases hc
        · rw [if_neg hcond] at hc
          injection hc with hd
          show z_src.length ≤ i'
          rcases hinv' with ⟨a1, a2, a3⟩ | ⟨a1, a2⟩ | ⟨a1, a2⟩
          · have hb1 : ex' = -1 := a1
            omega
          · have hb1 : ex' = 0 := a1
            omega
          · exact a2
      · by_cases hcond : ex' = 0 ∨ sa' = 0
        · rw [if_pos hcond]
          exact Or.inl rfl
        · rw [if_neg hcond]
          rcases hinv' with ⟨a1, a2, a3⟩ | ⟨a1, a2⟩ | ⟨a1, a2⟩
          · have hb1 : ex' = -1 := a1
            rw [hb1]
            exact Or.inr (Or.inl rfl)
          · exact absurd (Or.inl (show ex' = 0 from a1)) hcond
          · have hb1 : ex' = 1 := a1
            rw [hb1]
            exact Or.inr (Or.inr rfl)

/-- The marcher states reachable in a run of `gridwise_interpolation` over a
given source column: the initial window, plus any state produced by a
successful step. -/
inductive Reached (z_src : List Fp) (increasing : Bool) : MarchState → Prop where
  | init : Reached z_src increasing (initState increasing z_src)
  | step (st : MarchState) (cur : Fp) (call : KernelCall) (st' : MarchState) :
      Reached z_src increasing st →
      marchStep z_src (zLast increasing) st cur = Except.ok (call, st') →
      Reached z_src increasing st'

/-- Every reachable marcher state satisfies the window invariant. -/
lemma reached_winInv {z_src : List Fp} {increasing : Bool} {st : MarchState}
    (h : Reached z_src increasing st) : WinInv z_src st := by
  induction h with
  | init => exact Or.inl ⟨rfl, rfl, rfl⟩
  | step st cur call st' _ hstep ih => exact (marchStep_spec ih hstep).1

/-- IEEE equality is reflexive away from NaN. -/
lemma fpBeq_refl {x : Fp} (h : x.isNaN = false) : fpBeq x x = true := by
  cases x with
  | nan => cases h
  | inf b => simp [fpBeq]
  | fin q => simp [fpBeq]

/-- `linear_interp` at an exact coordinate match copies the data column at
the bracket index. -/
lemma linear_interp_exact {i : ℕ} {z_src : List Fp} {fz_src : List (List Fp)}
    {level : Fp} (hlev : z_src.getD i Fp.nan = level)
    (hnn : level.isNaN = false) :
    linear_interp i z_src fz_src level
      = fz_src.map (fun row => row.getD i Fp.nan) := by
  rw [linear_interp, if_pos]
  rw [hlev]
  exact fpBeq_refl hnn

/-- Against a non-NaN level, the distance to a different value never compares
`<=` to the self-distance (which is `0` for finite levels and NaN for
infinite ones). -/
lemma fpLe_to_exact_false {level prev : Fp} (hnn : level.isNaN = false)
    (hne : prev ≠ level) :
    fpLe (fpAbs (fpSub level prev)) (fpAbs (fpSub level level)) = false := by
  cases level with
  | nan => cases hnn
  | inf b =>
    have hnanR : fpAbs (fpSub (Fp.inf b) (Fp.inf b)) = Fp.nan := by
      simp [fpSub, fpAbs]
    rw [hnanR]
    cases fpAbs (fpSub (Fp.inf b) prev) <;> simp [fpLe, fpLt, fpBeq]
  | fin q =>
    cases prev with
    | nan => simp [fpSub, fpAbs, fpLe, fpLt, fpBeq]
    | inf b' => simp [fpSub, fpAbs, fpLe, fpLt, fpBeq]
    | fin q' =>
      have hq : ¬(q - q' = 0) := by
        intro hc
        exact hne (by rw [sub_eq_zero.mp hc])
      simp only [fpSub, fpAbs, fpLe, fpLt, fpBeq, sub_self, abs_zero,
        Bool.or_eq_false_iff, decide_eq_false_iff_not, not_lt, beq_eq_false_iff_ne,
        ne_eq, abs_eq_zero]
      exact ⟨abs_nonneg _, hq⟩

/-- `nearest_interp` at an exact coordinate match copies the data column at
the bracket index, provided the bracket is at 0 or its lower sample differs
from its upper one. -/
lemma nearest_interp_exact {i : ℕ} {z_src : List Fp} {fz_src : List (List Fp)}
    {level : Fp} (hlev : z_src.getD i Fp.nan = level)
    (hnn : level.isNaN = false)
    (hprev : i = 0 ∨ z_src.getD (i - 1) Fp.nan ≠ z_src.getD i Fp.nan) :
    nearest_interp i z_src fz_src level
      = fz_src.map (fun row => row.getD i Fp.nan) := by
  have hcond : ¬(i ≠ 0 ∧ fpLe (fpAbs (fpSub level (z_src.getD (i - 1) Fp.nan)))
      (fpAbs (fpSub level (z_src.getD i Fp.nan))) = true) := by
    rcases hprev with h0 | hne
    · simp [h0]
    · intro hc
      have hne' : z_src.getD (i - 1) Fp.nan ≠ level := by
        rw [← hlev]
        exact hne
      have hf := fpLe_to_exact_false hnn hne'
      have h2 := hc.2
      rw [hlev] at h2
      rw [hf] at h2
      simp at h2
  simp only [nearest_interp, if_neg hcond]

/-- The window-advance loop never fails when the unconsumed source suffix is
NaN-free. -/
lemma advanceLoop_total {z_last : Fp} {sb : ℤ} {cur : Fp} :
    ∀ (rest : List Fp), (∀ x ∈ rest, x.isNaN = false) →
    ∀ (i : ℕ) (za : Fp) (ex : ℤ) (sa : ℤ),
      ∃ r, advanceLoop z_last sb cur rest i za ex sa = Except.ok r := by
  intro rest
  induction rest with
  | nil =>
    intro _ i za ex sa
    rw [advanceLoop]
    by_cases hb : sb = sa
    · exact ⟨_, by rw [if_pos hb]⟩
    · exact ⟨_, by rw [if_neg hb]⟩
  | cons z0 t ih =>
    intro hok i za ex sa
    rw [advanceLoop]
    by_cases hb : sb = sa
    · rw [if_pos hb]
      have h0 : z0.isNaN = false := hok z0 (by simp)
      rw [h0]
      simp only [Bool.false_eq_true, if_false]
      exact ih (fun x hx => hok x (by simp [hx])) (i + 1) z0 0
        (relative_sign z0 cur)
    · exact ⟨_, by rw [if_neg hb]⟩

/-- If the window-advance loop fails, the failure is `InvalidSource` and some
source sample strictly after the entry cursor is NaN. -/
lemma advanceLoop_error {z_src : List Fp} {z_last : Fp} {sb : ℤ} {cur : Fp} :
    ∀ (rest : List Fp) (i : ℕ) (za : Fp) (ex : ℤ) (sa : ℤ),
      rest = z_src.drop (i + 1) →
      ∀ e, advanceLoop z_last sb cur rest i za ex sa = Except.error e →
      e = MarchErr.invalidSource ∧
        ∃ j, i + 1 ≤ j ∧ j < z_src.length ∧
          (z_src.getD j Fp.nan).isNaN = true := by
  intro rest
  induction rest with
  | nil =>
    intro i za ex sa hrest e herr
    rw [advanceLoop] at herr
    by_cases hb : sb = sa
    · rw [if_pos hb] at herr
      cases herr
    · rw [if_neg hb] at herr
      cases herr
  | cons z0 t ih =>
    intro i za ex sa hrest e herr
    obtain ⟨hlt, hget, ht⟩ := getD_of_drop_cons hrest.symm
    rw [advanceLoop] at herr
    by_cases hb : sb = sa
    · rw [if_pos hb] at herr
      by_cases h0 : z0.isNaN
      · simp only [if_pos h0, Except.error.injEq] at herr
        refine ⟨herr.symm, i + 1, le_refl _, hlt, ?_⟩
        rw [hget]
        exact h0
      · simp only [if_neg h0] at herr
        obtain ⟨he, j, hj1, hj2, hj3⟩ :=
          ih (i + 1) z0 0 (relative_sign z0 cur) ht e herr
        exact ⟨he, j, by omega, hj2, hj3⟩
    · rw [if_neg hb] at herr
      cases herr

/-- If a march step fails with `InvalidSource`, some non-leading source
sample is NaN. -/
lemma marchStep_error_invalidSource {z_src : List Fp} {z_last : Fp}
    {st : MarchState} {cur : Fp}
    (h : marchStep z_src z_last st cur = Except.error MarchErr.invalidSource) :
    ∃ j, 1 ≤ j ∧ j < z_src.length ∧ (z_src.getD j Fp.nan).isNaN = true := by
  rw [marchStep] at h
  by_cases hnan : cur.isNaN
  · rw [if_pos hnan] at h
    cases h
  · simp only [if_neg hnan] at h
    rcases hadv : advanceLoop z_last (relative_sign st.z_before cur) cur
        (z_src.drop (st.i_src + 1)) st.i_src st.z_after st.extrapolating
        (relative_sign st.z_after cur) with e | r
    · rw [hadv] at h
      injection h with he
      subst he
      obtain ⟨_, j, hj1, hj2, hj3⟩ := advanceLoop_error
        (z_src.drop (st.i_src + 1)) st.i_src st.z_after st.extrapolating
        (relative_sign st.z_after cur) rfl _ hadv
      exact ⟨j, by omega, hj2, hj3⟩
    · obtain ⟨i', za', ex', sa'⟩ := r
      rw [hadv] at h
      cases h

/-- A kernel application can only fail with `InsufficientData` (linear
extrapolation on fewer than 2 source points). -/
lemma applyCall_error {ik : IKernel} {ek : EKernel} {z_src : List Fp}
    {fz_src : List (List Fp)} {cur : Fp} {call : KernelCall} {e : MarchErr}
    (h : applyCall ik ek z_src fz_src cur call = Except.error e) :
    e = MarchErr.insufficientData := by
  cases call with
  | interp i =>
    rw [applyCall] at h
    cases h
  | extrap d =>
    cases ek with
    | nanFill =>
      rw [applyCall, runExtrapKernel] at h
      cases h
    | nearestEdge =>
      rw [applyCall, runExtrapKernel] at h
      cases h
    | linearEdge =>
      rw [applyCall, runExtrapKernel] at h
      simp only [linear_extrap] at h
      by_cases hn : (fz_src.headD []).length < 2
      · rw [if_pos hn] at h
        injection h with he
        exact he.symm
      · rw [if_neg hn] at h
        cases h

/-- A kernel application succeeds whenever the data column has at least two
source points. -/
lemma applyCall_total {ik : IKernel} {ek : EKernel} {z_src : List Fp}
    {fz_src : List (List Fp)} {cur : Fp} {call : KernelCall}
    (hn : 2 ≤ (fz_src.headD []).length) :
    ∃ col, applyCall ik ek z_src fz_src cur call = Except.ok col := by
  cases call with
  | interp i => exact ⟨_, rfl⟩
  | extrap d =>
    cases ek with
    | nanFill => exact ⟨_, rfl⟩
    | nearestEdge => exact ⟨_, rfl⟩
    | linearEdge =>
      cases hres : applyCall ik EKernel.linearEdge z_src fz_src cur
          (KernelCall.extrap d) with
      | error e =>
        rw [applyCall, runExtrapKernel] at hres
        simp only [linear_extrap] at hres
        rw [if_neg (by omega)] at hres
        cases hres
      | ok col => exact ⟨col, rfl⟩

/-- If a whole-column march fails with `InvalidSource`, some non-leading
source sample is NaN. -/
lemma marchAux_error_invalidSource {z_src : List Fp} {fz_src : List (List Fp)}
    {z_last : Fp} {ik : IKernel} {ek : EKernel} :
    ∀ (targets : List Fp) (st : MarchState),
      marchAux z_src fz_src z_last ik ek targets st
        = Except.error MarchErr.invalidSource →
      ∃ j, 1 ≤ j ∧ j < z_src.length ∧ (z_src.getD j Fp.nan).isNaN = true := by
  intro targets
  induction targets with
  | nil =>
    intro st h
    rw [marchAux] at h
    cases h
  | cons cur rest ih =>
    intro st h
    rw [marchAux] at h
    rcases hstep : marchStep z_src z_last st cur with e | r
    · rw [hstep] at h
      injection h with he
      subst he
      exact marchStep_error_invalidSource hstep
    · obtain ⟨call, st'⟩ := r
      rw [hstep] at h
      dsimp only at h
      rcases happ : applyCall ik ek z_src fz_src cur call with e | col
      · rw [happ] at h
        injection h with he
        have hd := applyCall_error happ
        rw [hd] at he
        cases he
      · rw [happ] at h
        dsimp only at h
        rcases hrec : marchAux z_src fz_src z_last ik ek rest st' with e | cols
        · rw [hrec] at h
          injection h with he
          subst he
          exact ih st' hrec
        · rw [hrec] at h
          cases h

/-- Over a NaN-free source column with at least two points, a target list
containing a NaN makes the march fail with `InvalidTarget` (and the error
result carries no output). -/
lemma marchAux_nan_target {z_src : List Fp} {fz_src : List (List Fp)}
    {z_last : Fp} {ik : IKernel} {ek : EKernel}
    (hsrc : ∀ x ∈ z_src, x.isNaN = false)
    (hfz : 2 ≤ (fz_src.headD []).length) :
    ∀ (targets : List Fp) (st : MarchState),
      (∃ t ∈ targets, t.isNaN = true) →
      marchAux z_src fz_src z_last ik ek targets st
        = Except.error MarchErr.invalidTarget := by
  intro targets
  induction targets with
  | nil =>
    intro st h
    exact absurd h (by simp)
  | cons cur rest ih =>
    intro st h
    rw [marchAux]
    by_cases hcur : cur.isNaN
    · have hstep : marchStep z_src z_last st cur
          = Except.error MarchErr.invalidTarget := by
        rw [marchStep, if_pos hcur]
      rw [hstep]
    · have hok : ∃ r, marchStep z_src z_last st cur = Except.ok r := by
        rw [marchStep]
        simp only [if_neg hcur]
        obtain ⟨⟨i', za', ex', sa'⟩, hr⟩ := advanceLoop_total
          (z_src.drop (st.i_src + 1))
          (fun x hx => hsrc x (List.drop_subset _ _ hx)) st.i_src st.z_after
          st.extrapolating (relative_sign st.z_after cur)
        rw [hr]
        exact ⟨_, rfl⟩
      obtain ⟨⟨call, st'⟩, hstep⟩ := hok
      rw [hstep]
      dsimp only
      obtain ⟨col, happ⟩ := @applyCall_total ik ek z_src fz_src cur call hfz
      rw [happ]
      dsimp only
      have hrest : ∃ t ∈ rest, t.isNaN = true := by
        rcases h with ⟨t, ht, htn⟩
        rcases List.mem_cons.mp ht with rfl | hm
        · exact absurd htn hcur
        · exact ⟨t, hm, htn⟩
      rw [ih st' hrest]

/-- IEEE `<=` is reflexive away from NaN. -/
lemma fpLe_refl {x : Fp} (h : x.isNaN = false) : fpLe x x = true := by
  cases x with
  | nan => cases h
  | inf b => simp [fpLe, fpBeq]
  | fin q => simp [fpLe, fpBeq]

/-- C1, counterexample: with `z_src = [2,4]`, data row `[10,20]` and target
`3` (equidistant from both samples), the nearest kernel invoked by the march
at bracket index 1 copies `fz_src[:, 0] = 10`, not `fz_src[:, 1] = 20` as the
claim states. -/
theorem C1_tie_counterexample :
    gridwise_interpolation [Fp.fin 3] [Fp.fin 2, Fp.fin 4]
        [[Fp.fin 10, Fp.fin 20]] true IKernel.nearest EKernel.nanFill
      = Except.ok [[Fp.fin 10]] ∧
    gridwise_interpolation [Fp.fin 3] [Fp.fin 2, Fp.fin 4]
        [[Fp.fin 10, Fp.fin 20]] true IKernel.nearest EKernel.nanFill
      ≠ Except.ok [[Fp.fin 20]] := by
  have h : gridwise_interpolation [Fp.fin 3] [Fp.fin 2, Fp.fin 4]
      [[Fp.fin 10, Fp.fin 20]] true IKernel.nearest EKernel.nanFill
      = Except.ok [[Fp.fin 10]] := by
    norm_num [gridwise_interpolation, marchAux, marchStep, advanceLoop,
      relative_sign, initState, zLast, applyCall, runInterpKernel,
      runExtrapKernel, nearest_interp, fpSub, fpAbs, fpLe, fpLt, fpBeq,
      Fp.isNaN]
  refine ⟨h, ?_⟩
  rw [h]
  intro hc
  injection hc with hc2
  injection hc2 with hc3
  injection hc3 with hc4
  injection hc4 with hc5
  norm_num at hc5

/-- C1, amended: a tie in `nearest_interp` at bracket index `i ≥ 1` (the two
distances equal and not NaN) resolves to index `i - 1`: every data row of the
output copies `fz_src[:, i-1]`. -/
theorem C1_tie_amended {i : ℕ} {z_src : List Fp} {fz_src : List (List Fp)}
    {level : Fp} (hi : i ≠ 0)
    (htie : fpAbs (fpSub level (z_src.getD (i - 1) Fp.nan))
      = fpAbs (fpSub level (z_src.getD i Fp.nan)))
    (hnn : (fpAbs (fpSub level (z_src.getD (i - 1) Fp.nan))).isNaN = false) :
    nearest_interp i z_src fz_src level
      = fz_src.map (fun row => row.getD (i - 1) Fp.nan) := by
  have hcond : i ≠ 0 ∧ fpLe (fpAbs (fpSub level (z_src.getD (i - 1) Fp.nan)))
      (fpAbs (fpSub level (z_src.getD i Fp.nan))) = true :=
    ⟨hi, by rw [← htie]; exact fpLe_refl hnn⟩
  simp only [nearest_interp, if_pos hcond]

/-- Witness for C1's amended theorem at `i = 1`, `z_src = [2,4]`,
`level = 3`. -/
theorem C1_tie_amended_witness :
    nearest_interp 1 [Fp.fin 2, Fp.fin 4] [[Fp.fin 10, Fp.fin 20]] (Fp.fin 3)
      = [[Fp.fin 10, Fp.fin 20]].map (fun row => row.getD (1 - 1) Fp.nan) :=
  C1_tie_amended (by decide)
    (by norm_num [fpSub, fpAbs, List.getD])
    (by norm_num [fpSub, fpAbs, Fp.isNaN, List.getD])

/-- C2, counterexample: a NaN target over an all-NaN source column does not
raise `InvalidTarget` — the all-NaN shortcut returns an all-NaN output
without ever inspecting the targets. -/
theorem C2_nan_target_counterexample :
    gridwise_interpolation [Fp.nan] [Fp.nan] [[Fp.fin 10]] true
      IKernel.linear EKernel.nanFill = Except.ok [[Fp.nan]] := by
  norm_num [gridwise_interpolation, Fp.isNaN, List.getD]

/-- C2, amended: whenever the target coordinate contains a NaN, provided the
source column is NaN-free with at least two samples (so that neither the
all-NaN shortcut, an `InvalidSource` pull, nor `InsufficientData` preempts),
the march fails with `InvalidTarget`; the error result carries no output. -/
theorem C2_nan_target_amended {z_target z_src : List Fp}
    {fz_src : List (List Fp)} {increasing : Bool} {ik : IKernel} {ek : EKernel}
    (hsrc : ∀ x ∈ z_src, x.isNaN = false)
    (hlen : 2 ≤ z_src.length)
    (hfz : fz_src ≠ [])
    (hrows : ∀ r ∈ fz_src, r.length = z_src.length)
    (htar : ∃ t ∈ z_target, t.isNaN = true) :
    gridwise_interpolation z_target z_src fz_src increasing ik ek
      = Except.error MarchErr.invalidTarget := by
  have h0 : (z_src.getD 0 Fp.nan).isNaN = false := by
    cases z_src with
    | nil => simp at hlen
    | cons a t => exact hsrc a (by simp)
  have hfz2 : 2 ≤ (fz_src.headD []).length := by
    cases fz_src with
    | nil => exact absurd rfl hfz
    | cons r t =>
      have := hrows r (by simp)
      simpa [this] using hlen
  rw [gridwise_interpolation, if_neg]
  · exact marchAux_nan_target hsrc hfz2 z_target _ htar
  · intro hc
    rw [h0] at hc
    simp at hc

/-- Witness for C2's amended theorem: source `[1,2]`, target `[NaN]`. -/
theorem C2_nan_target_amended_witness :
    gridwise_interpolation [Fp.nan] [Fp.fin 1, Fp.fin 2]
        [[Fp.fin 10, Fp.fin 20]] true IKernel.linear EKernel.nanFill
      = Except.error MarchErr.invalidTarget :=
  C2_nan_target_amended (by decide) (by decide) (by decide) (by decide)
    (by decide)

/-- C3: with `z_src = [2,4,6]`, `fz_src = [[2,4,6]]`, rising, linear
interpolation and NaN extrapolation, the target order `[3,5]` yields `[3,5]`
while the reordered `[5,3]` yields `[5, NaN]` — after processing 5 the
window's lower bound has moved past 3 and the second lookup extrapolates
past the end. -/
theorem C3_target_order :
    gridwise_interpolation [Fp.fin 3, Fp.fin 5] [Fp.fin 2, Fp.fin 4, Fp.fin 6]
        [[Fp.fin 2, Fp.fin 4, Fp.fin 6]] true IKernel.linear EKernel.nanFill
      = Except.ok [[Fp.fin 3], [Fp.fin 5]] ∧
    gridwise_interpolation [Fp.fin 5, Fp.fin 3] [Fp.fin 2, Fp.fin 4, Fp.fin 6]
        [[Fp.fin 2, Fp.fin 4, Fp.fin 6]] true IKernel.linear EKernel.nanFill
      = Except.ok [[Fp.fin 5], [Fp.nan]] := by
  constructor <;>
    norm_num [gridwise_interpolation, marchAux, marchStep, advanceLoop,
      relative_sign, initState, zLast, applyCall, runInterpKernel,
      runExtrapKernel, linear_interp, nan_data_extrap, fpSub, fpAdd, fpMul,
      fpDiv, fpLt, fpBeq, Fp.isNaN]

/-- Helper: the axis guard is down exactly when the resolved coordinate axis
is within the coordinate's rank and the raw axis argument is at most the
coordinate's rank. -/
lemma axis_out_of_range_eq_false_iff {fnd znd : ℕ} {axis : ℤ} :
    axis_out_of_range fnd znd axis = false ↔
      (0 ≤ zp_axis_of fnd znd axis ∧
        zp_axis_of fnd znd axis < (znd : ℤ)) ∧ ¬((znd : ℤ) < axis) := by
  unfold axis_out_of_range
  cases h1 : decide (0 ≤ zp_axis_of fnd znd axis) <;>
    cases h2 : decide (zp_axis_of fnd znd axis < (znd : ℤ)) <;>
      cases h3 : decide ((znd : ℤ) < axis) <;>
        simp_all

/-- C4, counterexample: with data rank 5, coordinate rank 2 and axis 3, the
resolved data axis is 3 (within the data's rank) and the resolved coordinate
axis is 0 (within the coordinate's rank), yet the constructor raises
`AxisOutOfRange` because of the extra `axis > z_src.ndim` disjunct. -/
theorem C4_axis_counterexample :
    axis_out_of_range 5 2 3 = true ∧ fp_axis_of 5 3 = 3 ∧
      zp_axis_of 5 2 3 = 0 := by
  refine ⟨?_, ?_, ?_⟩ <;> decide

/-- C4, amended: the guard passes exactly when the resolved coordinate axis
is in range AND the raw axis argument does not exceed the coordinate's rank;
for valid NumPy axis arguments this means a nonnegative axis must lie in
`[data_rank - coord_rank, coord_rank]` and a negative axis must be at least
`-coord_rank`. -/
theorem C4_axis_guard_amended {fnd znd : ℕ} {axis : ℤ} (h0 : 0 < znd)
    (h1 : znd ≤ fnd) (h2 : -(fnd : ℤ) ≤ axis) (h3 : axis < (fnd : ℤ)) :
    axis_out_of_range fnd znd axis = false ↔
      ((0 ≤ axis ∧ (fnd : ℤ) - znd ≤ axis ∧ axis ≤ znd) ∨
        (axis < 0 ∧ -(znd : ℤ) ≤ axis)) := by
  rw [axis_out_of_range_eq_false_iff]
  unfold zp_axis_of fp_axis_of
  by_cases hax : 0 ≤ axis
  · have he : (axis + (fnd : ℤ)) % fnd = axis := by
      rw [Int.add_emod_self]
      exact Int.emod_eq_of_lt hax h3
    rw [he]
    omega
  · push_neg at hax
    have he : (axis + (fnd : ℤ)) % fnd = axis + fnd :=
      Int.emod_eq_of_lt (by omega) (by omega)
    rw [he]
    omega

/-- Witness for C4's amended theorem: data rank 3, coordinate rank 3,
axis `-1`. -/
theorem C4_axis_guard_amended_witness :
    axis_out_of_range 3 3 (-1) = false ↔
      ((0 ≤ (-1 : ℤ) ∧ (3 : ℤ) - 3 ≤ (-1 : ℤ) ∧ (-1 : ℤ) ≤ 3) ∨
        ((-1 : ℤ) < 0 ∧ -(3 : ℤ) ≤ (-1 : ℤ))) :=
  C4_axis_guard_amended (by decide) (by decide) (by decide) (by decide)

/-- C5: when the march's step for a target invokes the interpolation kernel
at bracket index `i` and the target equals the source sample there
(the sign-zero exact-match bracket), both the Linear and the Nearest kernel
return `fz_src[:, i]` exactly. -/
theorem C5_exact_match {z_src : List Fp} {increasing : Bool} {st : MarchState}
    {cur : Fp} {i : ℕ} {st' : MarchState} (ik : IKernel)
    (fz_src : List (List Fp)) (hreach : Reached z_src increasing st)
    (hstep : marchStep z_src (zLast increasing) st cur
      = Except.ok (KernelCall.interp i, st'))
    (hexact : z_src.getD i Fp.nan = cur) :
    runInterpKernel ik i z_src fz_src cur
      = fz_src.map (fun row => row.getD i Fp.nan) := by
  obtain ⟨hinv', hnn, _, hiff, _, _, hcases⟩ :=
    marchStep_spec (reached_winInv hreach) hstep
  have hnn' : cur.isNaN = false := hnn
  have hi : i = st'.i_src := by
    rcases hcases with hc | hc | hc
    · exact KernelCall.interp.inj hc
    · cases hc
    · cases hc
  have hprev : i = 0 ∨ z_src.getD (i - 1) Fp.nan ≠ z_src.getD i Fp.nan := by
    rcases hinv' with ⟨a1, a2, a3⟩ | ⟨a1, a2, a3, a4, a5, a6⟩ | ⟨a1, a2⟩
    · exact Or.inl (by rw [hi]; exact a2)
    · exact Or.inr (by rw [hi]; exact a6)
    · exfalso
      have hnan2 : z_src.getD i Fp.nan = Fp.nan :=
        getD_of_le_length (by rw [hi]; exact a2)
      rw [hexact] at hnan2
      rw [hnan2] at hnn'
      simp [Fp.isNaN] at hnn'
  cases ik with
  | linear => exact linear_interp_exact hexact hnn'
  | nearest => exact nearest_interp_exact hexact hnn' hprev

/-- Witness for C5 at the initial window: source `[2,4]`, target `2`
(exactly `z_src[0]`), nearest kernel. -/
theorem C5_exact_match_witness :
    runInterpKernel IKernel.nearest 0 [Fp.fin 2, Fp.fin 4]
        [[Fp.fin 10, Fp.fin 20]] (Fp.fin 2)
      = [[Fp.fin 10, Fp.fin 20]].map (fun row => row.getD 0 Fp.nan) :=
  @C5_exact_match [Fp.fin 2, Fp.fin 4] true _ (Fp.fin 2) 0
    ⟨0, Fp.fin 2, Fp.fin 2, -1⟩ IKernel.nearest [[Fp.fin 10, Fp.fin 20]]
    Reached.init
    (by norm_num [marchStep, advanceLoop, relative_sign, initState, zLast,
      fpSub, fpLt, Fp.isNaN, List.getD])
    (by norm_num [List.getD])

/-- C8: for every processed target from a reachable state, the marcher
invokes the interpolation kernel at the current source index exactly when
the extrapolation flag is cleared or the target lands exactly on `z_after`
(sign zero); otherwise it invokes the extrapolation kernel, with direction
`-1` exactly when the window never advanced past index 0, and `+1` when it
ran off the end of the source. -/
theorem C8_kernel_dispatch {z_src : List Fp} {increasing : Bool}
    {st : MarchState} {cur : Fp} {call : KernelCall} {st' : MarchState}
    (hreach : Reached z_src increasing st)
    (hstep : marchStep z_src (zLast increasing) st cur
      = Except.ok (call, st')) :
    ((call = KernelCall.interp st'.i_src) ↔
      (st'.extrapolating = 0 ∨ relative_sign st'.z_after cur = 0)) ∧
    (call = KernelCall.extrap (-1) → st'.i_src = 0) ∧
    (call = KernelCall.extrap 1 → z_src.length ≤ st'.i_src) ∧
    (call = KernelCall.interp st'.i_src ∨ call = KernelCall.extrap (-1) ∨
      call = KernelCall.extrap 1) := by
  obtain ⟨_, _, _, h4, h5, h6, h7⟩ :=
    marchStep_spec (reached_winInv hreach) hstep
  exact ⟨h4, h5, h6, h7⟩

/-- Witness for C8: source `[2,4]`, first target `3` brackets at index 1 and
dispatches to the interpolation kernel. -/
theorem C8_kernel_dispatch_witness :
    ((KernelCall.interp 1 = KernelCall.interp 1) ↔
      ((0 : ℤ) = 0 ∨ relative_sign (Fp.fin 4) (Fp.fin 3) = 0)) ∧
    (KernelCall.interp 1 = KernelCall.extrap (-1) → (1 : ℕ) = 0) ∧
    (KernelCall.interp 1 = KernelCall.extrap 1 →
      ([Fp.fin 2, Fp.fin 4] : List Fp).length ≤ 1) ∧
    (KernelCall.interp 1 = KernelCall.interp 1 ∨
      KernelCall.interp 1 = KernelCall.extrap (-1) ∨
      KernelCall.interp 1 = KernelCall.extrap 1) :=
  @C8_kernel_dispatch [Fp.fin 2, Fp.fin 4] true _ (Fp.fin 3)
    (KernelCall.interp 1) ⟨1, Fp.fin 3, Fp.fin 4, 0⟩ Reached.init
    (by norm_num [marchStep, advanceLoop, relative_sign, initState, zLast,
      fpSub, fpLt, Fp.isNaN, List.getD])

/-- C6: an all-NaN source column yields an all-NaN output for every row and
every target, without error and independently of the data values. -/
theorem C6_all_nan_column {z_target z_src : List Fp} {fz_src : List (List Fp)}
    {increasing : Bool} {ik : IKernel} {ek : EKernel}
    (hne : z_src ≠ []) (hall : ∀ x ∈ z_src, x.isNaN = true)
    (htar : z_target ≠ []) :
    gridwise_interpolation z_target z_src fz_src increasing ik ek
      = Except.ok (List.replicate z_target.length
          (List.replicate fz_src.length Fp.nan)) := by
  rw [gridwise_interpolation, if_pos]
  refine ⟨by simpa [List.length_eq_zero] using htar, ?_, ?_⟩
  · cases z_src with
    | nil => exact absurd rfl hne
    | cons a t => exact hall a (by simp)
  · exact List.all_eq_true.mpr hall

/-- Witness for C6: one NaN source sample, one target, one data row. -/
theorem C6_all_nan_column_witness :
    gridwise_interpolation [Fp.fin 1] [Fp.nan] [[Fp.fin 7]] true
        IKernel.linear EKernel.nanFill
      = Except.ok (List.replicate ([Fp.fin 1] : List Fp).length
          (List.replicate ([[Fp.fin 7]] : List (List Fp)).length Fp.nan)) :=
  C6_all_nan_column (by decide) (by decide) (by decide)

/-- C7, counterexample: source `[2, NaN]` (non-leading NaN, leading not NaN)
with target `[1]` returns an extrapolated value without raising
`InvalidSource` — the NaN is never pulled by the march. -/
theorem C7_unpulled_nan_counterexample :
    gridwise_interpolation [Fp.fin 1] [Fp.fin 2, Fp.nan]
        [[Fp.fin 10, Fp.fin 20]] true IKernel.linear EKernel.nanFill
      = Except.ok [[Fp.nan]] := by
  norm_num [gridwise_interpolation, marchAux, marchStep, advanceLoop,
    relative_sign, initState, zLast, applyCall, runExtrapKernel,
    nan_data_extrap, fpSub, fpLt, Fp.isNaN, List.getD]

/-- C7, amended: the march fails with `InvalidSource` only by pulling a NaN
source sample while advancing the window: whenever it so fails, some
non-leading source sample is NaN (NaN samples the march never reaches are
tolerated). -/
theorem C7_invalid_source_amended {z_target z_src : List Fp}
    {fz_src : List (List Fp)} {increasing : Bool} {ik : IKernel} {ek : EKernel}
    (herr : gridwise_interpolation z_target z_src fz_src increasing ik ek
      = Except.error MarchErr.invalidSource) :
    ∃ j, 1 ≤ j ∧ j < z_src.length ∧ (z_src.getD j Fp.nan).isNaN = true := by
  rw [gridwise_interpolation] at herr
  by_cases hc : z_target.length ≠ 0 ∧ (z_src.getD 0 Fp.nan).isNaN = true
      ∧ z_src.all Fp.isNaN = true
  · rw [if_pos hc] at herr
    cases herr
  · rw [if_neg hc] at herr
    exact marchAux_error_invalidSource z_target _ herr

/-- Witness for C7's amended theorem: source `[1, NaN]`, target `[2]` pulls
the NaN and fails. -/
theorem C7_invalid_source_amended_witness :
    ∃ j, 1 ≤ j ∧ j < ([Fp.fin 1, Fp.nan] : List Fp).length ∧
      (([Fp.fin 1, Fp.nan] : List Fp).getD j Fp.nan).isNaN = true :=
  @C7_invalid_source_amended [Fp.fin 2] [Fp.fin 1, Fp.nan]
    [[Fp.fin 10, Fp.fin 20]] true IKernel.linear EKernel.nanFill
    (by norm_num [gridwise_interpolation, marchAux, marchStep, advanceLoop,
      relative_sign, initState, zLast, fpSub, fpLt, Fp.isNaN, List.getD])

/-- `scanl (· * ·)` read at position `n` is the running product of the first
`n` entries. -/
lemma scanl_mul_getD :
    ∀ (l : List ℕ) (a : ℕ) (n : ℕ), n ≤ l.length →
      (List.scanl (· * ·) a l).getD n 1 = a * (l.take n).prod := by
  intro l
  induction l with
  | nil =>
    intro a n hn
    have : n = 0 := by simpa using hn
    subst this
    simp [List.scanl]
  | cons b t ih =>
    intro a n hn
    cases n with
    | zero => simp [List.scanl]
    | succ m =>
      rw [List.scanl]
      rw [List.getD_cons_succ]
      rw [ih (a * b) m (by simpa using hn)]
      rw [List.take_succ_cons, List.prod_cons]
      ring

/-- C9: for every valid input (trailing shapes consistent, axis guard down),
the result shape keeps the data's rank and every non-axis extent, carries the
target count on the resolved axis, and its total size equals that of the 4-d
working buffer (row-count x leading x target-count x trailing), so the final
reshape is size-consistent; the result dtype is floating for integer input
data and the input's own dtype for floating input data. -/
theorem C9_result_contract {orig zshape : List ℕ} {axis : ℤ} {n_target : ℕ}
    {d : DType} {fp zp : ℕ}
    (hz : 0 < zshape.length)
    (hcons : shapes_consistent zshape orig = true)
    (hax : axis_out_of_range orig.length zshape.length axis = false)
    (hfp : (fp : ℤ) = fp_axis_of orig.length axis)
    (hzp : (zp : ℤ) = zp_axis_of orig.length zshape.length axis) :
    (result_shape_of orig fp n_target).length = orig.length ∧
    (∀ k, k < orig.length → k ≠ fp →
      (result_shape_of orig fp n_target).getD k 0 = orig.getD k 0) ∧
    (result_shape_of orig fp n_target).getD fp 0 = n_target ∧
    (result_shape_of orig fp n_target).prod
      = (orig.take (orig.length - zshape.length)).prod * lh_dim_size zshape zp
        * n_target * (zshape.drop (zp + 1)).prod ∧
    (issubdtype_int d = true → (target_dtype d).isFloating = true) ∧
    (d.isFloating = true → target_dtype d = d) := by
  have hzs : zshape = orig.drop (orig.length - zshape.length) :=
    of_decide_eq_true hcons
  have hle : zshape.length ≤ orig.length := by
    have := congrArg List.length hzs
    simp only [List.length_drop] at this
    omega
  obtain ⟨⟨hax1, hax2⟩, hax3⟩ := axis_out_of_range_eq_false_iff.mp hax
  have hzplt : zp < zshape.length := by
    rw [← hzp] at hax2
    exact_mod_cast hax2
  have hfp_eq : fp = (orig.length - zshape.length) + zp := by
    have h1 : (zp : ℤ)
        = (fp : ℤ) - ((orig.length : ℤ) - (zshape.length : ℤ)) := by
      rw [hzp, hfp]
      rfl
    omega
  have hfplt : fp < orig.length := by omega
  have hsplit : orig = orig.take (orig.length - zshape.length) ++ zshape := by
    conv_lhs => rw [← List.take_append_drop (orig.length - zshape.length) orig]
    rw [← hzs]
  have hprelen : (orig.take (orig.length - zshape.length)).length
      = orig.length - zshape.length := by
    rw [List.length_take]
    omega
  refine ⟨by simp [result_shape_of], ?_, ?_, ?_, ?_, ?_⟩
  · intro k hk hkfp
    simp [result_shape_of, List.getD_eq_getElem?_getD,
      List.getElem?_set_ne (Ne.symm hkfp)]
  · simp [result_shape_of, List.getD_eq_getElem?_getD,
      List.getElem?_set_self hfplt]
  · rw [result_shape_of, List.prod_set, if_pos hfplt]
    have h1 : fp = (orig.take (orig.length - zshape.length)).length + zp := by
      rw [hprelen]
      omega
    have h2 : fp + 1
        = (orig.take (orig.length - zshape.length)).length + (zp + 1) := by
      rw [hprelen]
      omega
    have htake : orig.take fp
        = orig.take (orig.length - zshape.length) ++ zshape.take zp := by
      conv_lhs => rw [hsplit, h1]
      exact List.take_append zp
    have hdrop : orig.drop (fp + 1) = zshape.drop (zp + 1) := by
      conv_lhs => rw [hsplit, h2]
      exact List.drop_append (zp + 1)
    rw [htake, hdrop, List.prod_append]
    rw [lh_dim_size, scanl_mul_getD zshape 1 zp (le_of_lt hzplt)]
    ring
  · intro hint
    rw [target_dtype, if_pos hint]
    rfl
  · intro hfl
    cases d with
    | intType => simp [DType.isFloating] at hfl
    | float32 => rfl
    | float64 => rfl

/-- Witness for C9: data shape `[2,3,4]`, coordinate shape `[3,4]`,
axis `-1`, 5 targets, integer input dtype. -/
theorem C9_result_contract_witness :
    (result_shape_of [2, 3, 4] 2 5).length = ([2, 3, 4] : List ℕ).length ∧
    (∀ k, k < ([2, 3, 4] : List ℕ).length → k ≠ 2 →
      (result_shape_of [2, 3, 4] 2 5).getD k 0
        = ([2, 3, 4] : List ℕ).getD k 0) ∧
    (result_shape_of [2, 3, 4] 2 5).getD 2 0 = 5 ∧
    (result_shape_of [2, 3, 4] 2 5).prod
      = (([2, 3, 4] : List ℕ).take (([2, 3, 4] : List ℕ).length
            - ([3, 4] : List ℕ).length)).prod
        * lh_dim_size [3, 4] 1 * 5 * (([3, 4] : List ℕ).drop (1 + 1)).prod ∧
    (issubdtype_int DType.intType = true →
      (target_dtype DType.intType).isFloating = true) ∧
    (DType.intType.isFloating = true
      → target_dtype DType.intType = DType.intType) :=
  @C9_result_contract [2, 3, 4] [3, 4] (-1) 5 DType.intType 2 1
    (by decide) (by decide) (by decide) (by decide) (by decide)

/-- C10: with an empty target coordinate the marcher performs no work and
returns an empty (error-free) output for every source column, NaN content
included — both the all-NaN scan and the per-target NaN checks are guarded
by the target count; and the result shape carries extent 0 on the resolved
axis. -/
theorem C10_empty_target :
    (∀ (z_src : List Fp) (fz_src : List (List Fp)) (increasing : Bool)
      (ik : IKernel) (ek : EKernel),
      gridwise_interpolation [] z_src fz_src increasing ik ek
        = Except.ok []) ∧
    (∀ (orig : List ℕ) (fp : ℕ), fp < orig.length →
      (result_shape_of orig fp 0).getD fp 0 = 0) := by
  constructor
  · intro z_src fz_src increasing ik ek
    rw [gridwise_interpolation, if_neg]
    · rfl
    · simp
  · intro orig fp h
    simp [result_shape_of, List.getD_eq_getElem?_getD,
      List.getElem?_set_self h]

/-- Witness for C10: a NaN-containing source column with no targets, and a
concrete result shape. -/
theorem C10_empty_target_witness :
    gridwise_interpolation [] [Fp.nan, Fp.fin 2] [[Fp.fin 1, Fp.fin 2]] true
        IKernel.linear EKernel.nanFill = Except.ok [] ∧
    (result_shape_of [2, 3] 1 0).getD 1 0 = 0 :=
  ⟨C10_empty_target.1 [Fp.nan, Fp.fin 2] [[Fp.fin 1, Fp.fin 2]] true
      IKernel.linear EKernel.nanFill,
    C10_empty_target.2 [2, 3] 1 (by decide)⟩
